import Mathlib

/-!
Verification development for the Cross-Chain Identity Hub repository.

The file shallowly embeds, from the source:
  * `src/contracts/CrossChainResolver.sol` — the on-chain registry
    (`setVerifiedAddress`, `getVerifiedAddress`, `removeVerifiedAddress`,
    the enumeration views and the `onlyNodeOwner` modifier);
  * `src/backend/utils/bitcoinVerify.js` and `solanaVerify.js` — the
    signature verifiers (external crypto primitives are parameters);
  * the hash engine (`computeProofHash`, `computeHash`, `isValidHash`)
    whose keccak primitive is a parameter returning the digest bytes;
  * the `/challenge` and `/verify` express handlers.

Solidity `bytes32` values are modelled as `Nat` (no arithmetic is ever
performed on them), `string` as `String`, `uint256` as `Nat`, addresses
as `Nat`.  Solidity mappings are total functions with explicit default
values, matching EVM storage semantics; `delete` writes the default.
A reverting call is an `Except.error` (no state is produced); the
`exec*` wrappers return the pre-state on revert, which is exactly what
an EVM revert does.
-/

/-- Errors declared by `CrossChainResolver` (`error` declarations). -/
inductive CRError where
  | notNodeOwner (node : Nat) (caller : Nat)
  | emptyAddress
  | emptyChainId
  | verifiedAddressNotFound (node : Nat) (chainId : String)
  deriving DecidableEq, Repr

/-- Storage of `CrossChainResolver`: the four mappings.  `verifiedAddresses`
stores the `VerifiedAddress` struct as `(addr, proofHash, verifiedAt)`. -/
structure RegistryState where
  verifiedAddresses : Nat → String → String × Nat × Nat
  hasVerifiedAddress : Nat → String → Bool
  nodeChainIds : Nat → List String
  chainIdIndex : Nat → String → Nat

/-- Freshly deployed contract: every mapping holds its default value. -/
def initialState : RegistryState where
  verifiedAddresses := fun _ _ => ("", 0, 0)
  hasVerifiedAddress := fun _ _ => false
  nodeChainIds := fun _ => []
  chainIdIndex := fun _ _ => 0

/-- Point update of a one-key mapping. -/
def upd1 {α : Type} (f : Nat → α) (n : Nat) (v : α) : Nat → α :=
  fun n' => if n' = n then v else f n'

/-- Point update of a two-key mapping (`m[node][chainId] = v`). -/
def upd2 {α : Type} (f : Nat → String → α) (n : Nat) (c : String) (v : α) :
    Nat → String → α :=
  fun n' c' => if n' = n ∧ c' = c then v else f n' c'

@[simp] theorem upd1_same {α : Type} (f : Nat → α) (n : Nat) (v : α) :
    upd1 f n v n = v := by simp [upd1]

@[simp] theorem upd1_ne {α : Type} (f : Nat → α) (n n' : Nat) (v : α)
    (h : n' ≠ n) : upd1 f n v n' = f n' := by simp [upd1, h]

@[simp] theorem upd2_same {α : Type} (f : Nat → String → α) (n : Nat)
    (c : String) (v : α) : upd2 f n c v n c = v := by simp [upd2]

theorem upd2_ne {α : Type} (f : Nat → String → α) (n : Nat) (c : String)
    (v : α) (n' : Nat) (c' : String) (h : ¬(n' = n ∧ c' = c)) :
    upd2 f n c v n' c' = f n' c' := by simp [upd2, h]

/-- `setVerifiedAddress(node, chainId, addr, proofHash, verifiedAt)`.
`ens : Nat → Nat` is the external ENS registry's `owner` lookup and
`caller` is `msg.sender` (the `onlyNodeOwner` modifier compares them).
Mirrors the function body: input validation, conditional registration of
a new chain id (push followed by recording index `length - 1`, i.e. the
pre-push length), then the struct and flag writes. -/
def setVerifiedAddress (ens : Nat → Nat) (caller : Nat) (s : RegistryState)
    (node : Nat) (chainId addr : String) (proofHash verifiedAt : Nat) :
    Except CRError RegistryState :=
  if ens node ≠ caller then .error (.notNodeOwner node caller)
  else if addr = "" then .error .emptyAddress
  else if chainId = "" then .error .emptyChainId
  else
    let s1 :=
      if s.hasVerifiedAddress node chainId = false then
        { s with
          nodeChainIds := upd1 s.nodeChainIds node (s.nodeChainIds node ++ [chainId]),
          chainIdIndex := upd2 s.chainIdIndex node chainId (s.nodeChainIds node).length }
      else s
    .ok { s1 with
          verifiedAddresses :=
            upd2 s1.verifiedAddresses node chainId (addr, proofHash, verifiedAt),
          hasVerifiedAddress := upd2 s1.hasVerifiedAddress node chainId true }

/-- `getVerifiedAddress(node, chainId)`: view, no ownership gate. -/
def getVerifiedAddress (s : RegistryState) (node : Nat) (chainId : String) :
    Except CRError (String × Nat × Nat) :=
  if s.hasVerifiedAddress node chainId = false then
    .error (.verifiedAddressNotFound node chainId)
  else .ok (s.verifiedAddresses node chainId)

/-- `removeVerifiedAddress(node, chainId)`: clears the struct and flag,
then removes `chainId` from the enumeration list by swap-with-last-and-pop,
updating the moved element's index, and deletes the removed id's index. -/
def removeVerifiedAddress (ens : Nat → Nat) (caller : Nat) (s : RegistryState)
    (node : Nat) (chainId : String) : Except CRError RegistryState :=
  if ens node ≠ caller then .error (.notNodeOwner node caller)
  else if s.hasVerifiedAddress node chainId = false then
    .error (.verifiedAddressNotFound node chainId)
  else
    let s1 :=
      { s with
        verifiedAddresses := upd2 s.verifiedAddresses node chainId ("", 0, 0),
        hasVerifiedAddress := upd2 s.hasVerifiedAddress node chainId false }
    let l := s1.nodeChainIds node
    let index := s1.chainIdIndex node chainId
    let lastIndex := l.length - 1
    let s2 :=
      if index ≠ lastIndex then
        let lastChainId := l.getD lastIndex ""
        { s1 with
          nodeChainIds := upd1 s1.nodeChainIds node (l.set index lastChainId),
          chainIdIndex := upd2 s1.chainIdIndex node lastChainId index }
      else s1
    .ok { s2 with
          nodeChainIds := upd1 s2.nodeChainIds node (s2.nodeChainIds node).dropLast,
          chainIdIndex := upd2 s2.chainIdIndex node chainId 0 }

/-- `getNodeChainIds(node)` (the `listChains` view). -/
def getNodeChainIds (s : RegistryState) (node : Nat) : List String :=
  s.nodeChainIds node

/-- `getVerifiedAddressCount(node)`. -/
def getVerifiedAddressCount (s : RegistryState) (node : Nat) : Nat :=
  (s.nodeChainIds node).length

/-- `hasVerifiedAddressForChain(node, chainId)`. -/
def hasVerifiedAddressForChain (s : RegistryState) (node : Nat)
    (chainId : String) : Bool :=
  s.hasVerifiedAddress node chainId

/-- An external call to `setVerifiedAddress` at the transaction level: on
revert the storage is unchanged and the error is reported. -/
def execSet (ens : Nat → Nat) (caller : Nat) (s : RegistryState) (node : Nat)
    (chainId addr : String) (proofHash verifiedAt : Nat) :
    RegistryState × Option CRError :=
  match setVerifiedAddress ens caller s node chainId addr proofHash verifiedAt with
  | .ok s' => (s', none)
  | .error e => (s, some e)

/-- An external call to `removeVerifiedAddress` at the transaction level. -/
def execRemove (ens : Nat → Nat) (caller : Nat) (s : RegistryState)
    (node : Nat) (chainId : String) : RegistryState × Option CRError :=
  match removeVerifiedAddress ens caller s node chainId with
  | .ok s' => (s', none)
  | .error e => (s, some e)

/-- C1: writing a binding as the node owner and reading it back returns
exactly the values written; removing it and reading again fails with
`VerifiedAddressNotFound` carrying the node and chain id. -/
theorem registry_set_get_remove_roundtrip (ens : Nat → Nat) (caller : Nat)
    (s : RegistryState) (node : Nat) (chainId addr : String)
    (proofHash verifiedAt : Nat) (hown : ens node = caller)
    (haddr : addr ≠ "") (hchain : chainId ≠ "") :
    (execSet ens caller s node chainId addr proofHash verifiedAt).2 = none ∧
    getVerifiedAddress (execSet ens caller s node chainId addr proofHash verifiedAt).1
      node chainId = .ok (addr, proofHash, verifiedAt) ∧
    (execRemove ens caller
      (execSet ens caller s node chainId addr proofHash verifiedAt).1 node chainId).2
      = none ∧
    getVerifiedAddress
      (execRemove ens caller
        (execSet ens caller s node chainId addr proofHash verifiedAt).1 node chainId).1
      node chainId = .error (.verifiedAddressNotFound node chainId) := by
  simp only [execSet, execRemove, setVerifiedAddress, removeVerifiedAddress,
    getVerifiedAddress, hown]
  by_cases hnew : s.hasVerifiedAddress node chainId = false <;>
    simp [haddr, hchain, hnew, upd2] <;> split <;> simp [upd2]

/-- Witness for C1 at concrete inputs. -/
theorem registry_set_get_remove_roundtrip_witness :
    (execSet (fun _ => 7) 7 initialState 5 "bitcoin" "1addr" 99 1000).2 = none ∧
    getVerifiedAddress (execSet (fun _ => 7) 7 initialState 5 "bitcoin" "1addr" 99 1000).1
      5 "bitcoin" = .ok ("1addr", 99, 1000) ∧
    (execRemove (fun _ => 7) 7
      (execSet (fun _ => 7) 7 initialState 5 "bitcoin" "1addr" 99 1000).1 5 "bitcoin").2
      = none ∧
    getVerifiedAddress
      (execRemove (fun _ => 7) 7
        (execSet (fun _ => 7) 7 initialState 5 "bitcoin" "1addr" 99 1000).1 5 "bitcoin").1
      5 "bitcoin" = .error (.verifiedAddressNotFound 5 "bitcoin") :=
  registry_set_get_remove_roundtrip (fun _ => 7) 7 initialState 5 "bitcoin" "1addr"
    99 1000 rfl (by decide) (by decide)

/-- C3: a caller who is not the node's owner per the external ENS registry
gets `NotNodeOwner(node, caller)` from both mutating operations, and the
entire storage is unchanged by the failed call. -/
theorem registry_only_node_owner_gate (ens : Nat → Nat) (caller : Nat)
    (s : RegistryState) (node : Nat) (chainId addr : String)
    (proofHash verifiedAt : Nat) (h : ens node ≠ caller) :
    execSet ens caller s node chainId addr proofHash verifiedAt
      = (s, some (.notNodeOwner node caller)) ∧
    execRemove ens caller s node chainId = (s, some (.notNodeOwner node caller)) := by
  constructor <;> simp [execSet, execRemove, setVerifiedAddress,
    removeVerifiedAddress, h]

/-- Witness for C3: caller 3 is not the owner (owner is 7). -/
theorem registry_only_node_owner_gate_witness :
    execSet (fun _ => 7) 3 initialState 5 "bitcoin" "1addr" 99 1000
      = (initialState, some (.notNodeOwner 5 3)) ∧
    execRemove (fun _ => 7) 3 initialState 5 "bitcoin"
      = (initialState, some (.notNodeOwner 5 3)) :=
  registry_only_node_owner_gate (fun _ => 7) 3 initialState 5 "bitcoin" "1addr"
    99 1000 (by decide)

/-! Helper lemmas about `List.getD`, `List.set` and `List.dropLast`, used to
reason about the registry's swap-with-last-and-pop removal. -/

theorem getD_append_lt (l₁ l₂ : List String) (i : Nat) (h : i < l₁.length) :
    (l₁ ++ l₂).getD i "" = l₁.getD i "" := by
  induction l₁ generalizing i with
  | nil => simp at h
  | cons a t ih =>
    cases i with
    | zero => simp
    | succ j => simpa using ih j (by simpa using h)

theorem getD_append_ge (l₁ l₂ : List String) (i : Nat) (h : l₁.length ≤ i) :
    (l₁ ++ l₂).getD i "" = l₂.getD (i - l₁.length) "" := by
  induction l₁ generalizing i with
  | nil => simp
  | cons a t ih =>
    cases i with
    | zero => simp at h
    | succ j => simpa [Nat.succ_sub_succ] using ih j (by simpa using h)

theorem getD_append_middle (l₁ l₂ : List String) (a : String) :
    (l₁ ++ a :: l₂).getD l₁.length "" = a := by
  induction l₁ with
  | nil => simp
  | cons b t ih => simpa using ih

theorem set_append_lt (l₁ l₂ : List String) (i : Nat) (v : String)
    (h : i < l₁.length) : (l₁ ++ l₂).set i v = l₁.set i v ++ l₂ := by
  induction l₁ generalizing i with
  | nil => simp at h
  | cons a t ih =>
    cases i with
    | zero => simp
    | succ j => simpa using ih j (by simpa using h)

theorem set_append_middle (l₁ l₂ : List String) (a v : String) :
    (l₁ ++ a :: l₂).set l₁.length v = l₁ ++ v :: l₂ := by
  induction l₁ with
  | nil => simp
  | cons b t ih => simpa using ih

theorem getD_mem (l : List String) (i : Nat) (h : i < l.length) :
    l.getD i "" ∈ l := by
  rw [List.getD_eq_getElem l "" h]
  exact List.getElem_mem h

theorem nodup_getD_inj (l : List String) (hnd : l.Nodup) (i j : Nat)
    (hi : i < l.length) (hj : j < l.length)
    (h : l.getD i "" = l.getD j "") : i = j := by
  rw [List.getD_eq_getElem l "" hi, List.getD_eq_getElem l "" hj] at h
  exact (hnd.getElem_inj_iff).1 h

theorem take_getD_drop (l : List String) (i : Nat) (h : i < l.length) :
    l.take i ++ l.getD i "" :: l.drop (i + 1) = l := by
  induction l generalizing i with
  | nil => simp at h
  | cons a t ih =>
    cases i with
    | zero => simp
    | succ j => simpa using ih j (by simpa using h)

theorem eq_dropLast_concat (l : List String) (h : l ≠ []) :
    l = l.dropLast ++ [l.getD (l.length - 1) ""] := by
  have hlen : l.length - 1 < l.length := by
    cases l with
    | nil => simp at h
    | cons a t => simp
  conv_lhs => rw [← List.dropLast_append_getLast h]
  rw [List.getD_eq_getElem l "" hlen, List.getLast_eq_getElem]

/-- Inductive invariant of the registry enumeration structure: per node the
chain-id list has no duplicates, membership in it coincides with the
`hasVerifiedAddress` flag, and for every live binding the recorded index is
in range and points at the slot holding that chain id. -/
def RegistryInv (s : RegistryState) : Prop :=
  ∀ n, (s.nodeChainIds n).Nodup ∧
    (∀ c, s.hasVerifiedAddress n c = true ↔ c ∈ s.nodeChainIds n) ∧
    (∀ c, s.hasVerifiedAddress n c = true →
      s.chainIdIndex n c < (s.nodeChainIds n).length ∧
      (s.nodeChainIds n).getD (s.chainIdIndex n c) "" = c)

theorem registryInv_initial : RegistryInv initialState := by
  intro n
  simp [initialState]

theorem registryInv_set (ens : Nat → Nat) (caller : Nat) (s : RegistryState)
    (node : Nat) (chainId addr : String) (proofHash verifiedAt : Nat)
    (s' : RegistryState)
    (hok : setVerifiedAddress ens caller s node chainId addr proofHash verifiedAt
      = .ok s')
    (hinv : RegistryInv s) : RegistryInv s' := by
  rw [setVerifiedAddress] at hok
  by_cases h1 : ens node ≠ caller
  · simp [h1] at hok
  rw [if_neg h1] at hok
  by_cases h2 : addr = ""
  · simp [h2] at hok
  rw [if_neg h2] at hok
  by_cases h3 : chainId = ""
  · simp [h3] at hok
  rw [if_neg h3] at hok
  by_cases hnew : s.hasVerifiedAddress node chainId = false
  · -- new chain id for this node: append and record index
    rw [if_pos hnew] at hok
    simp only [Except.ok.injEq] at hok
    subst hok
    intro n
    obtain ⟨hnd, hmem, hidx⟩ := hinv n
    dsimp only
    by_cases hn : n = node
    · subst hn
      have hnotmem : chainId ∉ s.nodeChainIds n := fun hc =>
        by simp [(hmem chainId).2 hc] at hnew
      refine ⟨?_, ?_, ?_⟩
      · simp only [upd1_same]
        simp [List.nodup_append, hnd, hnotmem]
      · intro c
        simp only [upd1_same]
        by_cases hc : c = chainId
        · subst hc
          simp [upd2]
        · simp [upd2, hc, hmem c]
      · intro c hc0
        simp only [upd1_same]
        by_cases hc : c = chainId
        · subst hc
          simp only [upd2_same]
          refine ⟨by simp, ?_⟩
          simpa using getD_append_middle (s.nodeChainIds n) [] c
        · have hc0' : s.hasVerifiedAddress n c = true := by
            simpa [upd2, hc] using hc0
          obtain ⟨hlt, hget⟩ := hidx c hc0'
          simp only [upd2, hc, and_false, if_false]
          refine ⟨by simp; omega, ?_⟩
          rw [getD_append_lt _ _ _ hlt]
          exact hget
    · refine ⟨?_, ?_, ?_⟩
      · simpa [upd1, hn] using hnd
      · intro c
        simpa [upd1, upd2, hn] using hmem c
      · intro c hc0
        have hc0' : s.hasVerifiedAddress n c = true := by
          simpa [upd2, hn] using hc0
        simpa [upd1, upd2, hn] using hidx c hc0'
  · -- the chain id was already registered: lists and indices untouched
    rw [if_neg hnew] at hok
    simp only [Except.ok.injEq] at hok
    subst hok
    have hhas : s.hasVerifiedAddress node chainId = true := by
      cases hval : s.hasVerifiedAddress node chainId
      · exact absurd hval hnew
      · rfl
    intro n
    obtain ⟨hnd, hmem, hidx⟩ := hinv n
    dsimp only
    refine ⟨hnd, ?_, ?_⟩
    · intro c
      by_cases hc : n = node ∧ c = chainId
      · obtain ⟨rfl, rfl⟩ := hc
        simp only [upd2_same]
        exact iff_of_true (by simp) ((hmem c).1 hhas)
      · rw [upd2_ne _ _ _ _ _ _ hc]
        exact hmem c
    · intro c hc0
      by_cases hc : n = node ∧ c = chainId
      · obtain ⟨rfl, rfl⟩ := hc
        exact hidx c hhas
      · rw [upd2_ne _ _ _ _ _ _ hc] at hc0
        exact hidx c hc0

theorem decomp_at_two (l : List String) (i : Nat) (hi : i < l.length - 1) :
    ∃ A B, A.length = i ∧
      l = (A ++ l.getD i "" :: B) ++ [l.getD (l.length - 1) ""] := by
  have hlen : 0 < l.length := by omega
  have hlne : l ≠ [] := by
    intro h
    rw [h] at hlen
    simp at hlen
  have hiT : i < l.dropLast.length := by
    rw [List.length_dropLast]
    omega
  have hgetT : l.dropLast.getD i "" = l.getD i "" := by
    conv_rhs => rw [eq_dropLast_concat l hlne]
    rw [getD_append_lt _ _ _ hiT]
  refine ⟨l.dropLast.take i, l.dropLast.drop (i + 1), ?_, ?_⟩
  · rw [List.length_take]
    rw [List.length_dropLast]
    omega
  · conv_lhs => rw [eq_dropLast_concat l hlne]
    congr 1
    rw [← hgetT]
    exact (take_getD_drop l.dropLast i hiT).symm

theorem swap_remove_eq (A B : List String) (c v : String) :
    (((A ++ c :: B) ++ [v]).set A.length v).dropLast = A ++ v :: B := by
  rw [set_append_lt _ _ _ _ (by simp)]
  rw [set_append_middle]
  exact List.dropLast_concat

theorem registryInv_remove (ens : Nat → Nat) (caller : Nat) (s : RegistryState)
    (node : Nat) (chainId : String) (s' : RegistryState)
    (hok : removeVerifiedAddress ens caller s node chainId = .ok s')
    (hinv : RegistryInv s) : RegistryInv s' := by
  rw [removeVerifiedAddress] at hok
  by_cases h1 : ens node ≠ caller
  · simp [h1] at hok
  rw [if_neg h1] at hok
  by_cases h2 : s.hasVerifiedAddress node chainId = false
  · simp [h2] at hok
  rw [if_neg h2] at hok
  have hhas : s.hasVerifiedAddress node chainId = true := by
    cases hval : s.hasVerifiedAddress node chainId
    · exact absurd hval h2
    · rfl
  obtain ⟨hnd, hmem, hidx⟩ := hinv node
  obtain ⟨hlt, hget⟩ := hidx chainId hhas
  dsimp only at hok
  by_cases hswap : s.chainIdIndex node chainId ≠ (s.nodeChainIds node).length - 1
  · -- the removed slot is not the last one: swap with last, then pop
    rw [if_pos hswap] at hok
    dsimp only at hok
    simp only [Except.ok.injEq] at hok
    subst hok
    set l := s.nodeChainIds node with hldef
    set i := s.chainIdIndex node chainId with hidef
    set v := l.getD (l.length - 1) "" with hv
    have hIlt : i < l.length - 1 := by omega
    have hvne : v ≠ chainId := by
      intro h
      apply hswap
      exact (nodup_getD_inj l hnd i (l.length - 1) hlt (by omega)
        (by rw [hget, ← h, hv]))
    have hcv : chainId ≠ v := fun h => hvne h.symm
    obtain ⟨A, B, hAlen, hdec⟩ := decomp_at_two l i hIlt
    rw [hget, ← hv] at hdec
    have hlistEq : (l.set i v).dropLast = A ++ v :: B := by
      conv_lhs => rw [hdec]
      rw [← hAlen]
      exact swap_remove_eq A B chainId v
    have hnd2 : ((A ++ chainId :: B) ++ [v]).Nodup := hdec ▸ hnd
    have hndX : (A ++ chainId :: B).Nodup := (List.nodup_append.mp hnd2).1
    have hdisjv : (A ++ chainId :: B).Disjoint [v] := (List.nodup_append.mp hnd2).2.2
    have hvnotmemX : v ∉ A ++ chainId :: B := fun hm => hdisjv hm (by simp)
    have hndA : A.Nodup := (List.nodup_append.mp hndX).1
    have hndcB : (chainId :: B).Nodup := (List.nodup_append.mp hndX).2.1
    have hdisjAB : A.Disjoint (chainId :: B) := (List.nodup_append.mp hndX).2.2
    have hcidnotB : chainId ∉ B := (List.nodup_cons.mp hndcB).1
    have hndB : B.Nodup := (List.nodup_cons.mp hndcB).2
    have hvA : v ∉ A := fun h => hvnotmemX (List.mem_append.mpr (Or.inl h))
    have hvB : v ∉ B := fun h => hvnotmemX (by simp [h])
    have hcidA : chainId ∉ A := fun h => hdisjAB h (by simp)
    have hXlen : (A ++ chainId :: B).length = l.length - 1 := by
      have h := congrArg List.length hdec
      simp at h
      simp [List.length_append]
      omega
    intro n
    dsimp only
    by_cases hn : n = node
    · subst hn
      refine ⟨?_, ?_, ?_⟩
      · simp only [upd1_same]
        rw [hlistEq]
        refine List.nodup_append.mpr ⟨hndA, List.nodup_cons.mpr ⟨hvB, hndB⟩, ?_⟩
        intro a ha hb
        rcases List.mem_cons.mp hb with rfl | hb'
        · exact hvA ha
        · exact hdisjAB ha (List.mem_cons.mpr (Or.inr hb'))
      · intro c
        simp only [upd1_same]
        rw [hlistEq]
        by_cases hc : c = chainId
        · subst hc
          simp [upd2, hcidA, hcidnotB, hcv]
        · rw [upd2_ne _ _ _ _ _ _ (by simp [hc])]
          rw [hmem c, hdec]
          simp only [List.mem_append, List.mem_cons, List.mem_singleton, hc,
            or_false, false_or]
          tauto
      · intro c hc0
        simp only [upd1_same]
        rw [hlistEq]
        have hcc : c ≠ chainId := by
          intro h
          subst h
          simp [upd2] at hc0
        have hc0' : s.hasVerifiedAddress n c = true := by
          simpa [upd2, hcc] using hc0
        rw [upd2_ne _ _ _ _ _ _ (by simp [hcc])]
        by_cases hcveq : c = v
        · subst hcveq
          simp only [upd2_same]
          constructor
          · simp only [List.length_append, List.length_cons]
            omega
          · rw [← hAlen]
            exact getD_append_middle A B v
        · rw [upd2_ne _ _ _ _ _ _ (by simp [hcveq])]
          obtain ⟨hlt', hget'⟩ := hidx c hc0'
          have hJne : s.chainIdIndex n c ≠ i := by
            intro h
            rw [h] at hget'
            exact hcc (hget'.symm.trans hget)
          have hJnl : s.chainIdIndex n c ≠ l.length - 1 := by
            intro h
            rw [h] at hget'
            exact hcveq (hget'.symm.trans hv.symm)
          have hJlt : s.chainIdIndex n c < l.length - 1 := by omega
          constructor
          · simp only [List.length_append, List.length_cons]
            have := hXlen
            simp only [List.length_append, List.length_cons] at this
            omega
          · rw [hdec] at hget'
            have hAi : A.length = i := hAlen
            rcases Nat.lt_or_ge (s.chainIdIndex n c) A.length with hJA | hJA
            · rw [getD_append_lt _ _ _ (by simp [List.length_append]; omega),
                getD_append_lt _ _ _ hJA] at hget'
              rw [getD_append_lt _ _ _ hJA]
              exact hget'
            · have hJA' : A.length < s.chainIdIndex n c := by omega
              rw [getD_append_lt _ _ _ (by rw [hXlen]; omega)] at hget'
              rw [List.append_cons A chainId B] at hget'
              rw [getD_append_ge _ _ _ (by simp; omega)] at hget'
              rw [List.append_cons A v B]
              rw [getD_append_ge _ _ _ (by simp; omega)]
              simpa using hget'
    · refine ⟨?_, ?_, ?_⟩
      · simp [upd1, hn]
        exact (hinv n).1
      · intro c
        simpa [upd1, upd2, hn] using (hinv n).2.1 c
      · intro c hc0
        have hc0' : s.hasVerifiedAddress n c = true := by
          simpa [upd2, hn] using hc0
        simpa [upd1, upd2, hn] using (hinv n).2.2 c hc0'
  · -- the removed slot is the last one: plain pop
    rw [if_neg hswap] at hok
    dsimp only at hok
    simp only [Except.ok.injEq] at hok
    subst hok
    set l := s.nodeChainIds node with hldef
    set i := s.chainIdIndex node chainId with hidef
    have hieq : i = l.length - 1 := not_ne_iff.mp hswap
    have hlne : l ≠ [] := by
      intro h
      rw [h] at hlt
      simp at hlt
    have hdec0 : l = l.dropLast ++ [chainId] := by
      have h := eq_dropLast_concat l hlne
      rw [← hieq, hget] at h
      exact h
    have hnd2 : (l.dropLast ++ [chainId]).Nodup := hdec0 ▸ hnd
    have hndd : l.dropLast.Nodup := (List.nodup_append.mp hnd2).1
    have hcd : chainId ∉ l.dropLast := fun h =>
      (List.nodup_append.mp hnd2).2.2 h (by simp)
    intro n
    dsimp only
    by_cases hn : n = node
    · subst hn
      refine ⟨?_, ?_, ?_⟩
      · simp only [upd1_same]
        exact hndd
      · intro c
        simp only [upd1_same]
        by_cases hc : c = chainId
        · subst hc
          simp [upd2, hcd]
        · rw [upd2_ne _ _ _ _ _ _ (by simp [hc])]
          rw [hmem c]
          conv_lhs => rw [hdec0]
          simp [hc]
      · intro c hc0
        simp only [upd1_same]
        have hcc : c ≠ chainId := by
          intro h
          subst h
          simp [upd2] at hc0
        have hc0' : s.hasVerifiedAddress n c = true := by
          simpa [upd2, hcc] using hc0
        rw [upd2_ne _ _ _ _ _ _ (by simp [hcc])]
        obtain ⟨hlt', hget'⟩ := hidx c hc0'
        have hJne : s.chainIdIndex n c ≠ i := by
          intro h
          rw [h] at hget'
          exact hcc (hget'.symm.trans hget)
        have hJlt : s.chainIdIndex n c < l.dropLast.length := by
          rw [List.length_dropLast]
          omega
        constructor
        · exact hJlt
        · rw [hdec0] at hget'
          rw [getD_append_lt _ _ _ hJlt] at hget'
          exact hget'
    · refine ⟨?_, ?_, ?_⟩
      · simp [upd1, hn]
        exact (hinv n).1
      · intro c
        simpa [upd1, upd2, hn] using (hinv n).2.1 c
      · intro c hc0
        have hc0' : s.hasVerifiedAddress n c = true := by
          simpa [upd2, hn] using hc0
        simpa [upd1, upd2, hn] using (hinv n).2.2 c hc0'

/-- Registry states reachable from a freshly deployed contract by any
sequence of `setVerifiedAddress` / `removeVerifiedAddress` calls (with any
ENS ownership state and any caller per call; reverting calls leave storage
unchanged, so only successful calls appear as steps). -/
inductive Reachable : RegistryState → Prop
  | init : Reachable initialState
  | set (ens : Nat → Nat) (caller node : Nat) (chainId addr : String)
      (proofHash verifiedAt : Nat) {s s' : RegistryState} :
      Reachable s →
      setVerifiedAddress ens caller s node chainId addr proofHash verifiedAt
        = .ok s' →
      Reachable s'
  | remove (ens : Nat → Nat) (caller node : Nat) (chainId : String)
      {s s' : RegistryState} :
      Reachable s →
      removeVerifiedAddress ens caller s node chainId = .ok s' →
      Reachable s'

theorem registryInv_reachable (s : RegistryState) (h : Reachable s) :
    RegistryInv s := by
  induction h with
  | init => exact registryInv_initial
  | set ens caller node chainId addr proofHash verifiedAt hr hok ih =>
      exact registryInv_set ens caller _ node chainId addr proofHash verifiedAt
        _ hok ih
  | remove ens caller node chainId hr hok ih =>
      exact registryInv_remove ens caller _ node chainId _ hok ih

/-- The enumeration invariant exactly as the specification states it: a
binding exists iff the chain id occurs exactly once in the node's chain-id
list, and then the recorded index points at the slot holding it. -/
def ClaimInv (s : RegistryState) : Prop :=
  ∀ n c, (s.hasVerifiedAddress n c = true ↔ (s.nodeChainIds n).count c = 1) ∧
    (s.hasVerifiedAddress n c = true →
      s.chainIdIndex n c < (s.nodeChainIds n).length ∧
      (s.nodeChainIds n).getD (s.chainIdIndex n c) "" = c)

theorem claimInv_of_registryInv (s : RegistryState) (h : RegistryInv s) :
    ClaimInv s := by
  intro n c
  obtain ⟨hnd, hmem, hidx⟩ := h n
  refine ⟨⟨?_, ?_⟩, hidx c⟩
  · intro hc
    exact List.count_eq_one_of_mem hnd ((hmem c).1 hc)
  · intro hc
    refine (hmem c).2 ?_
    by_contra hmemc
    have h0 := List.count_eq_zero.mpr hmemc
    omega

/-- ENS ownership for the demonstration scenario: address 7 owns
every node. -/
def demoEns : Nat → Nat := fun _ => 7

/-- Bind three chains under node 1, then remove the middle one. -/
def demoS1 : RegistryState :=
  (execSet demoEns 7 initialState 1 "bitcoin" "addrB" 11 101).1

def demoS2 : RegistryState :=
  (execSet demoEns 7 demoS1 1 "solana" "addrS" 22 102).1

def demoS3 : RegistryState :=
  (execSet demoEns 7 demoS2 1 "ethereum" "addrE" 33 103).1

def demoS4 : RegistryState :=
  (execRemove demoEns 7 demoS3 1 "solana").1

/-- C2: every state reachable by set/remove calls satisfies the enumeration
invariant (binding exists iff the chain id occurs exactly once in the node's
list, with the index pointing at its slot); concretely, after binding
bitcoin, solana and ethereum under node 1 and removing the middle chain
(solana), `listChains` returns exactly the remaining two, the count is 2,
the removed chain's existence check is false and the other two bindings
still return their original values. -/
theorem registry_enumeration_invariant (s : RegistryState) (h : Reachable s) :
    ClaimInv s ∧
    ((execSet demoEns 7 initialState 1 "bitcoin" "addrB" 11 101).2 = none ∧
     (execSet demoEns 7 demoS1 1 "solana" "addrS" 22 102).2 = none ∧
     (execSet demoEns 7 demoS2 1 "ethereum" "addrE" 33 103).2 = none ∧
     (execRemove demoEns 7 demoS3 1 "solana").2 = none ∧
     getNodeChainIds demoS4 1 = ["bitcoin", "ethereum"] ∧
     getVerifiedAddressCount demoS4 1 = 2 ∧
     hasVerifiedAddressForChain demoS4 1 "solana" = false ∧
     getVerifiedAddress demoS4 1 "bitcoin" = .ok ("addrB", 11, 101) ∧
     getVerifiedAddress demoS4 1 "ethereum" = .ok ("addrE", 33, 103)) := by
  refine ⟨claimInv_of_registryInv s (registryInv_reachable s h), ?_⟩
  refine ⟨?_, ?_, ?_, ?_, ?_, ?_, ?_, ?_, ?_⟩ <;> rfl

/-- Witness for C2 at the initial state and the demonstration run. -/
theorem registry_enumeration_invariant_witness :
    (initialState.hasVerifiedAddress 1 "bitcoin" = true ↔
      (initialState.nodeChainIds 1).count "bitcoin" = 1) ∧
    getNodeChainIds demoS4 1 = ["bitcoin", "ethereum"] :=
  ⟨((registry_enumeration_invariant initialState Reachable.init).1 1 "bitcoin").1,
   (registry_enumeration_invariant initialState Reachable.init).2.2.2.2.2.1⟩

/-! Signature verifiers (`src/backend/utils/bitcoinVerify.js`,
`src/backend/utils/solanaVerify.js`).  JavaScript exceptions are modelled
as `Except JsError`; the external cryptographic primitives
(`bitcoinMessage.verify`, `nacl.sign.detached.verify`) are parameters that
may throw.  Each `verifySignature` wraps its body in `try/catch`, turning
any thrown error into the return value `false`. -/

/-- A thrown JavaScript error, identified by its message. -/
abbrev JsError := String

/-- Character class of the legacy-address regex `[a-km-zA-HJ-NP-Z1-9]`. -/
def isLegacyBase58Char (c : Char) : Bool :=
  ('a' ≤ c && c ≤ 'k') || ('m' ≤ c && c ≤ 'z') || ('A' ≤ c && c ≤ 'H') ||
  ('J' ≤ c && c ≤ 'N') || ('P' ≤ c && c ≤ 'Z') || ('1' ≤ c && c ≤ '9')

/-- Legacy (P2PKH/P2SH) pattern `^[13][a-km-zA-HJ-NP-Z1-9]{25,34}$`. -/
def legacyRegexMatch (s : String) : Bool :=
  match s.toList with
  | c :: rest =>
    (c == '1' || c == '3') && decide (25 ≤ rest.length)
      && decide (rest.length ≤ 34) && rest.all isLegacyBase58Char
  | [] => false

/-- Character class `[a-z0-9]` of the bech32 patterns. -/
def isBech32Char (c : Char) : Bool :=
  ('a' ≤ c && c ≤ 'z') || ('0' ≤ c && c ≤ '9')

/-- Bech32 (P2WPKH/P2WSH) pattern `^bc1[a-z0-9]{39,59}$`. -/
def bech32RegexMatch (s : String) : Bool :=
  match s.toList with
  | 'b' :: 'c' :: '1' :: rest =>
    decide (39 ≤ rest.length) && decide (rest.length ≤ 59)
      && rest.all isBech32Char
  | _ => false

/-- Taproot (P2TR) pattern `^bc1p[a-z0-9]{58}$`. -/
def taprootRegexMatch (s : String) : Bool :=
  match s.toList with
  | 'b' :: 'c' :: '1' :: 'p' :: rest =>
    decide (rest.length = 58) && rest.all isBech32Char
  | _ => false

/-- `isValidBitcoinAddress`: any of the three patterns matches. -/
def isValidBitcoinAddress (address : String) : Bool :=
  legacyRegexMatch address || bech32RegexMatch address
    || taprootRegexMatch address

/-- `verifySignature` from `bitcoinVerify.js`: reject addresses failing the
format check, then delegate to `bitcoinMessage.verify(message, address,
signature)` (the parameter); the surrounding `try/catch` maps any thrown
error to `false`. -/
def bitcoinVerifySignature
    (btcMessageVerify : String → String → String → Except JsError Bool)
    (address message signature : String) : Bool :=
  let body : Except JsError Bool :=
    if isValidBitcoinAddress address = false then .ok false
    else btcMessageVerify message address signature
  match body with
  | .ok b => b
  | .error _ => false

/-- The base-58 alphabet used by `base58ToUint8Array`. -/
def solanaBase58Alphabet : String :=
  "123456789ABCDEFGHJKLMNPQRSTUVWXYZabcdefghijkmnopqrstuvwxyz"

/-- Character class of the Solana address regex `[1-9A-HJ-NP-Za-km-z]`. -/
def isSolanaBase58Char (c : Char) : Bool :=
  ('1' ≤ c && c ≤ '9') || ('A' ≤ c && c ≤ 'H') || ('J' ≤ c && c ≤ 'N') ||
  ('P' ≤ c && c ≤ 'Z') || ('a' ≤ c && c ≤ 'k') || ('m' ≤ c && c ≤ 'z')

/-- `isValidSolanaAddress`: `^[1-9A-HJ-NP-Za-km-z]{32,44}$`. -/
def isValidSolanaAddress (address : String) : Bool :=
  decide (32 ≤ address.length) && decide (address.length ≤ 44)
    && address.toList.all isSolanaBase58Char

/-- `alphabet.indexOf(char)` on a character list (`none` models `-1`). -/
def charIndexIn : List Char → Char → Option Nat
  | [], _ => none
  | a :: as, c => if a = c then some 0 else (charIndexIn as c).map (· + 1)

/-- The digit-accumulation loop of `base58ToUint8Array`.  The source walks
the string right-to-left accumulating `index * multi` with `multi` the
running power of 58; this structural recursion computes the identical
number (`index * 58 ^ remaining + rest`) and throws on exactly the same
inputs: some character outside the alphabet. -/
def base58Num : List Char → Except JsError Nat
  | [] => .ok 0
  | c :: cs =>
    match charIndexIn solanaBase58Alphabet.toList c with
    | none => .error "Invalid base58 character"
    | some i => do
      let rest ← base58Num cs
      .ok (i * 58 ^ cs.length + rest)

/-- Big-endian byte expansion (`while (num > 0) bytes.unshift(num % 256)`). -/
def natToBytes (n : Nat) : List Nat :=
  if h : n = 0 then []
  else natToBytes (n / 256) ++ [n % 256]
termination_by n
decreasing_by exact Nat.div_lt_self (Nat.pos_of_ne_zero h) (by decide)

/-- `base58ToUint8Array`: decode to bytes, prepending one zero byte per
leading `'1'` character; throws on characters outside the alphabet. -/
def base58ToUint8Array (s : String) : Except JsError (List Nat) := do
  let num ← base58Num s.toList
  .ok (List.replicate (s.toList.takeWhile (fun c => c == '1')).length 0
    ++ natToBytes num)

/-- `new TextEncoder().encode(message)` (code points; identical to UTF-8
for the ASCII messages exchanged by the protocol). -/
def textEncode (s : String) : List Nat :=
  s.toList.map Char.toNat

/-- `verifySignature` from `solanaVerify.js`: format check, base-58 decode
of public key and signature, then the Ed25519 check
`nacl.sign.detached.verify(messageBytes, signatureBytes, publicKeyBytes)`
(the parameter); the surrounding `try/catch` maps any thrown error to
`false`. -/
def solanaVerifySignature
    (naclVerify : List Nat → List Nat → List Nat → Except JsError Bool)
    (address message signature : String) : Bool :=
  let body : Except JsError Bool := do
    if isValidSolanaAddress address = false then
      return false
    let publicKeyBytes ← base58ToUint8Array address
    let signatureBytes ← base58ToUint8Array signature
    let messageBytes := textEncode message
    naclVerify messageBytes signatureBytes publicKeyBytes
  match body with
  | .ok b => b
  | .error _ => false

theorem charIndexIn_eq_none (l : List Char) (c : Char) (h : c ∉ l) :
    charIndexIn l c = none := by
  induction l with
  | nil => rfl
  | cons a as ih =>
    simp only [List.mem_cons, not_or] at h
    simp only [charIndexIn]
    rw [if_neg (fun hac => h.1 hac.symm)]
    rw [ih h.2]
    rfl

theorem base58Num_error (l : List Char) (c : Char) (hc : c ∈ l)
    (hbad : c ∉ solanaBase58Alphabet.toList) :
    base58Num l = .error "Invalid base58 character" := by
  induction l with
  | nil => simp at hc
  | cons a as ih =>
    rcases List.mem_cons.mp hc with rfl | hc'
    · simp only [base58Num, charIndexIn_eq_none _ _ hbad]
    · simp only [base58Num]
      cases hidx : charIndexIn solanaBase58Alphabet.toList a with
      | none => rfl
      | some i =>
        rw [ih hc']
        rfl

/-- C4: the verifiers return a plain boolean for every input and surface
all internal errors as `false`: a thrown `bitcoinMessage.verify` yields
`false`, and a Solana address or signature containing a character outside
the base-58 alphabet yields `false` (decode throws, the catch returns
`false`) rather than an escaping exception. -/
theorem verifiers_never_throw
    (btcMessageVerify : String → String → String → Except JsError Bool)
    (naclVerify : List Nat → List Nat → List Nat → Except JsError Bool)
    (address message signature : String) :
    (∀ e, btcMessageVerify message address signature = .error e →
      bitcoinVerifySignature btcMessageVerify address message signature
        = false) ∧
    (∀ c, c ∈ address.toList → c ∉ solanaBase58Alphabet.toList →
      solanaVerifySignature naclVerify address message signature = false) ∧
    (∀ c, c ∈ signature.toList → c ∉ solanaBase58Alphabet.toList →
      solanaVerifySignature naclVerify address message signature = false) := by
  refine ⟨?_, ?_, ?_⟩
  · intro e he
    rw [bitcoinVerifySignature]
    by_cases hval : isValidBitcoinAddress address = false
    · simp [hval]
    · simp [hval, he]
  · intro c hc hbad
    rw [solanaVerifySignature]
    by_cases hval : isValidSolanaAddress address = false
    · simp [hval]
      rfl
    · have herr2 : base58Num address.data = .error "Invalid base58 character" :=
        base58Num_error address.toList c hc hbad
      simp [hval, base58ToUint8Array, herr2, Bind.bind, Except.bind]
      rfl
  · intro c hc hbad
    rw [solanaVerifySignature]
    by_cases hval : isValidSolanaAddress address = false
    · simp [hval]
      rfl
    · have herr2 : base58Num signature.data = .error "Invalid base58 character" :=
        base58Num_error signature.toList c hc hbad
      cases haddr : base58ToUint8Array address with
      | error e =>
        simp [hval, haddr, Bind.bind, Except.bind]
        rfl
      | ok pk =>
        simp [hval, haddr, base58ToUint8Array, herr2, Bind.bind, Except.bind]
        rfl

/-- Witness for C4: a throwing Bitcoin primitive, a Solana address with
`'!'` and a Solana signature with `'0'` (both outside base-58). -/
theorem verifiers_never_throw_witness :
    bitcoinVerifySignature (fun _ _ _ => .error "boom")
      "1A1zP1eP5QGefi2DMPTfTL5SLmv7DivfNa" "msg" "sig" = false ∧
    solanaVerifySignature (fun _ _ _ => .ok true) "bad!" "msg" "sig" = false ∧
    solanaVerifySignature (fun _ _ _ => .ok true)
      "7dHbWXmci3dT8UFYWYZweBLXgycu7Y3iL6trKn1Y7ARj" "msg" "0sig" = false :=
  ⟨(verifiers_never_throw (fun _ _ _ => .error "boom") (fun _ _ _ => .ok true)
      "1A1zP1eP5QGefi2DMPTfTL5SLmv7DivfNa" "msg" "sig").1 "boom" rfl,
   (verifiers_never_throw (fun _ _ _ => .error "boom") (fun _ _ _ => .ok true)
      "bad!" "msg" "sig").2.1 '!' (by decide) (by decide),
   (verifiers_never_throw (fun _ _ _ => .error "boom") (fun _ _ _ => .ok true)
      "7dHbWXmci3dT8UFYWYZweBLXgycu7Y3iL6trKn1Y7ARj" "msg" "0sig").2.2 '0'
      (by decide) (by decide)⟩

/-- C9: an address matching none of the three Bitcoin patterns makes
`verifySignature` return `false` for every message and every signature and
under every behaviour of the cryptographic verifier — the primitive is
never consulted (the result does not depend on it). -/
theorem bitcoin_invalid_address_short_circuit
    (btcMessageVerify : String → String → String → Except JsError Bool)
    (address message signature : String)
    (h : isValidBitcoinAddress address = false) :
    bitcoinVerifySignature btcMessageVerify address message signature
      = false := by
  rw [bitcoinVerifySignature]
  simp [h]

/-- Witness for C9: a malformed address together with a primitive that
would accept any signature. -/
theorem bitcoin_invalid_address_short_circuit_witness :
    isValidBitcoinAddress "hello" = false ∧
    bitcoinVerifySignature (fun _ _ _ => .ok true) "hello" "m" "s" = false :=
  ⟨by decide, bitcoin_invalid_address_short_circuit _ _ _ _ (by decide)⟩

/-! Hash engine (`src/backend/utils/hash.js`).  The keccak256 primitive —
`keccak('keccak256').update(str).digest()` — is the parameter
`keccakBytes : String → List Nat`, the external library's 32-byte digest of
the input; hex encoding of the digest and the `0x` prefix are the
engine's own code.  A proof object is modelled as its property list in
insertion order (keys unique, values strings, as in the handlers). -/

/-- JavaScript property lookup `obj[k]` on the modelled object. -/
def jsLookup (k : String) : List (String × String) → Option String
  | [] => none
  | (k', v) :: rest => if k' = k then some v else jsLookup k rest

/-- `JSON.stringify(proof, Object.keys(proof).sort())`: with an array
replacer the serializer emits exactly the listed properties in the array's
order, so the output lists the fields in sorted key order. -/
def jsonStringifySorted (p : List (String × String)) : String :=
  let ks := List.insertionSort (fun a b => a ≤ b) (p.map Prod.fst)
  "\x7b" ++ String.intercalate ","
    (ks.map (fun k => "\"" ++ k ++ "\":\"" ++ (jsLookup k p).getD "" ++ "\""))
    ++ "\x7d"

/-- Two lowercase hex digits of one byte (`Buffer.toString('hex')`);
`Nat.digitChar` maps 0-15 to `0`-`9`, `a`-`f`. -/
def byteToHex (b : Nat) : List Char :=
  [Nat.digitChar (b / 16), Nat.digitChar (b % 16)]

/-- Hex characters of a digest. -/
def hexDigest (bs : List Nat) : List Char :=
  (bs.map byteToHex).flatten

/-- Hex string of a digest (`.digest('hex')`). -/
def bytesToHex (bs : List Nat) : String :=
  String.mk (hexDigest bs)

/-- `computeHash(input)`: keccak256 hex digest with `0x` prefix. -/
def computeHash (keccakBytes : String → List Nat) (input : String) : String :=
  "0x" ++ bytesToHex (keccakBytes input)

/-- `computeProofHash(proof)`: canonical serialization (sorted keys), then
keccak256 hex digest with `0x` prefix. -/
def computeProofHash (keccakBytes : String → List Nat)
    (proof : List (String × String)) : String :=
  "0x" ++ bytesToHex (keccakBytes (jsonStringifySorted proof))

/-- `combineHashes(...inputs)`: inputs joined with `'|'`, then hashed. -/
def combineHashes (keccakBytes : String → List Nat)
    (inputs : List String) : String :=
  computeHash keccakBytes (String.intercalate "|" inputs)

/-- Character class `[a-fA-F0-9]` of the validation regex. -/
def isHexChar (c : Char) : Bool :=
  ('a' ≤ c && c ≤ 'f') || ('A' ≤ c && c ≤ 'F') || ('0' ≤ c && c ≤ '9')

/-- Lowercase hex digits, the alphabet the engine actually emits. -/
def isLowerHexChar (c : Char) : Bool :=
  ('a' ≤ c && c ≤ 'f') || ('0' ≤ c && c ≤ '9')

/-- `isValidHash` on the character list: `/^0x[a-fA-F0-9]{64}$/`. -/
def isValidHashChars : List Char → Bool
  | '0' :: 'x' :: ds => decide (ds.length = 64) && ds.all isHexChar
  | _ => false

/-- `isValidHash(hash)`. -/
def isValidHash (s : String) : Bool :=
  isValidHashChars s.toList

theorem jsLookup_perm : ∀ {p q : List (String × String)}, p.Perm q →
    (p.map Prod.fst).Nodup → ∀ k, jsLookup k p = jsLookup k q := by
  intro p q hperm
  induction hperm with
  | nil => intro _ k; rfl
  | cons x h ih =>
    intro hnd k
    obtain ⟨k', v⟩ := x
    simp only [jsLookup]
    by_cases hk : k' = k
    · simp [hk]
    · simp only [if_neg hk]
      refine ih ?_ k
      simp only [List.map_cons] at hnd
      exact (List.nodup_cons.mp hnd).2
  | swap x y l =>
    intro hnd k
    obtain ⟨k1, v1⟩ := x
    obtain ⟨k2, v2⟩ := y
    simp only [List.map_cons, List.nodup_cons, List.mem_cons] at hnd
    simp only [jsLookup]
    by_cases h1 : k1 = k <;> by_cases h2 : k2 = k
    · exact absurd (h2.trans h1.symm) (fun h => hnd.1 (Or.inl h))
    · simp [h1, h2]
    · simp [h1, h2]
    · simp [h1, h2]
  | trans h12 h23 ih1 ih2 =>
    intro hnd k
    rw [ih1 hnd k, ih2 (((h12.map Prod.fst).nodup_iff).mp hnd) k]

theorem jsonStringifySorted_perm (p q : List (String × String))
    (hperm : p.Perm q) (hnd : (p.map Prod.fst).Nodup) :
    jsonStringifySorted p = jsonStringifySorted q := by
  rw [jsonStringifySorted, jsonStringifySorted]
  have hkeys : List.insertionSort (fun a b => a ≤ b) (p.map Prod.fst)
      = List.insertionSort (fun a b => a ≤ b) (q.map Prod.fst) := by
    exact List.eq_of_perm_of_sorted
      ((List.perm_insertionSort _ _).trans
        ((hperm.map Prod.fst).trans (List.perm_insertionSort _ _).symm))
      (List.sorted_insertionSort _ _) (List.sorted_insertionSort _ _)
  rw [hkeys]
  have hmap : ∀ ks : List String,
      ks.map (fun k => "\"" ++ k ++ "\":\"" ++ (jsLookup k p).getD "" ++ "\"")
        = ks.map (fun k => "\"" ++ k ++ "\":\"" ++ (jsLookup k q).getD "" ++ "\"") := by
    intro ks
    refine List.map_congr_left ?_
    intro k hk
    rw [jsLookup_perm hperm hnd k]
  rw [hmap]

/-- C5: two proof objects with the same set of field names and equal values
per field — one a permutation of the other, keys unique as in any JS
object — yield the same fingerprint under every digest primitive; hashing
the same object twice is the reflexive instance. -/
theorem computeProofHash_deterministic (keccakBytes : String → List Nat)
    (p q : List (String × String)) (hperm : p.Perm q)
    (hnd : (p.map Prod.fst).Nodup) :
    computeProofHash keccakBytes p = computeProofHash keccakBytes q := by
  rw [computeProofHash, computeProofHash,
    jsonStringifySorted_perm p q hperm hnd]

/-- Witness for C5: the proof object of the verify handler with its fields
reversed, under a stub digest primitive. -/
theorem computeProofHash_deterministic_witness :
    computeProofHash (fun _ => List.replicate 32 0)
      [("chain", "bitcoin"), ("address", "1A1z"), ("signature", "sg"),
       ("nonce", "n1"), ("verifiedAt", "t1")]
    = computeProofHash (fun _ => List.replicate 32 0)
      [("verifiedAt", "t1"), ("nonce", "n1"), ("signature", "sg"),
       ("address", "1A1z"), ("chain", "bitcoin")] :=
  computeProofHash_deterministic _ _ _ (by decide) (by decide)

theorem digitChar_isHexChar : ∀ n < 16, isHexChar (Nat.digitChar n) = true := by
  decide

theorem digitChar_isLowerHexChar :
    ∀ n < 16, isLowerHexChar (Nat.digitChar n) = true := by
  decide

theorem hexDigest_length (bs : List Nat) :
    (hexDigest bs).length = 2 * bs.length := by
  induction bs with
  | nil => rfl
  | cons b t ih =>
    simp only [hexDigest, List.map_cons, List.flatten_cons, List.length_append,
      byteToHex, List.length_cons, List.length_nil] at ih ⊢
    omega

theorem hexDigest_all_hex (bs : List Nat) (h : ∀ b ∈ bs, b < 256) :
    ∀ c ∈ hexDigest bs, isHexChar c = true := by
  induction bs with
  | nil => simp [hexDigest]
  | cons b t ih =>
    intro c hc
    simp only [hexDigest, List.map_cons, List.flatten_cons, byteToHex,
      List.mem_append, List.mem_cons, List.not_mem_nil, or_false] at hc
    rcases hc with (rfl | rfl) | hc'
    · exact digitChar_isHexChar _
        ((Nat.div_lt_iff_lt_mul (by decide)).mpr (h b (by simp)))
    · exact digitChar_isHexChar _ (Nat.mod_lt _ (by decide))
    · exact ih (fun x hx => h x (by simp [hx])) c hc'

theorem hexDigest_all_lower (bs : List Nat) (h : ∀ b ∈ bs, b < 256) :
    ∀ c ∈ hexDigest bs, isLowerHexChar c = true := by
  induction bs with
  | nil => simp [hexDigest]
  | cons b t ih =>
    intro c hc
    simp only [hexDigest, List.map_cons, List.flatten_cons, byteToHex,
      List.mem_append, List.mem_cons, List.not_mem_nil, or_false] at hc
    rcases hc with (rfl | rfl) | hc'
    · exact digitChar_isLowerHexChar _
        ((Nat.div_lt_iff_lt_mul (by decide)).mpr (h b (by simp)))
    · exact digitChar_isLowerHexChar _ (Nat.mod_lt _ (by decide))
    · exact ih (fun x hx => h x (by simp [hx])) c hc'

theorem computeHash_toList (keccakBytes : String → List Nat) (s : String) :
    (computeHash keccakBytes s).toList
      = '0' :: 'x' :: hexDigest (keccakBytes s) := by
  simp [computeHash, bytesToHex, String.toList, String.data_append]

theorem isValidHashChars_iff (l : List Char) :
    isValidHashChars l = true ↔
      l.take 2 = ['0', 'x'] ∧ l.length = 66 ∧
        ∀ c ∈ l.drop 2, isHexChar c = true := by
  unfold isValidHashChars
  split
  next ds =>
    simp [List.all_eq_true]
  next hcatch =>
    constructor
    · intro h
      simp at h
    · rintro ⟨htake, hlen, -⟩
      exfalso
      have hl : l = '0' :: 'x' :: l.drop 2 := by
        conv_lhs => rw [← List.take_append_drop 2 l]
        rw [htake]
        rfl
      exact hcatch (l.drop 2) hl

/-- C8: under the digest primitive's contract (a 32-byte digest, each byte
below 256) every engine output is `0x` followed by exactly 64 lowercase
hex digits; `isValidHash` accepts every engine output and rejects every
string of the wrong length or containing a non-hex character after the
prefix. -/
theorem hash_output_format (keccakBytes : String → List Nat)
    (hdigest : ∀ s, (keccakBytes s).length = 32 ∧
      ∀ b ∈ keccakBytes s, b < 256) :
    (∀ s, (computeHash keccakBytes s).toList.take 2 = ['0', 'x'] ∧
      (computeHash keccakBytes s).length = 66 ∧
      (∀ c ∈ (computeHash keccakBytes s).toList.drop 2,
        isLowerHexChar c = true) ∧
      isValidHash (computeHash keccakBytes s) = true) ∧
    (∀ p, isValidHash (computeProofHash keccakBytes p) = true) ∧
    (∀ s, s.length ≠ 66 → isValidHash s = false) ∧
    (∀ s c, c ∈ s.toList.drop 2 → isHexChar c = false →
      isValidHash s = false) := by
  have hmain : ∀ s, (computeHash keccakBytes s).toList.take 2 = ['0', 'x'] ∧
      (computeHash keccakBytes s).length = 66 ∧
      (∀ c ∈ (computeHash keccakBytes s).toList.drop 2,
        isLowerHexChar c = true) ∧
      isValidHash (computeHash keccakBytes s) = true := by
    intro s
    obtain ⟨hlen, hbytes⟩ := hdigest s
    have htl := computeHash_toList keccakBytes s
    refine ⟨?_, ?_, ?_, ?_⟩
    · rw [htl]
      rfl
    · have hsl : (computeHash keccakBytes s).length
          = (computeHash keccakBytes s).toList.length := rfl
      rw [hsl, htl]
      simp [hexDigest_length, hlen]
    · rw [htl]
      intro c hc
      exact hexDigest_all_lower _ hbytes c (by simpa using hc)
    · rw [isValidHash, htl]
      refine (isValidHashChars_iff _).mpr ⟨rfl, ?_, ?_⟩
      · simp [hexDigest_length, hlen]
      · intro c hc
        exact hexDigest_all_hex _ hbytes c (by simpa using hc)
  refine ⟨hmain, ?_, ?_, ?_⟩
  · intro p
    exact (hmain (jsonStringifySorted p)).2.2.2
  · intro s hlen66
    cases hvh : isValidHash s with
    | false => rfl
    | true =>
      exfalso
      have h := (isValidHashChars_iff s.toList).mp hvh
      exact hlen66 (by rw [show s.length = s.toList.length from rfl]; exact h.2.1)
  · intro s c hc hbad
    cases hvh : isValidHash s with
    | false => rfl
    | true =>
      exfalso
      have h := (isValidHashChars_iff s.toList).mp hvh
      have hcx := h.2.2 c hc
      rw [hbad] at hcx
      exact Bool.false_ne_true hcx

/-- Witness for C8: a stub 32-byte digest, a concrete proof object, a
too-short string and a string with a non-hex character. -/
theorem hash_output_format_witness :
    isValidHash (computeHash (fun _ => List.replicate 32 0) "hello") = true ∧
    isValidHash (computeProofHash (fun _ => List.replicate 32 0)
      [("chain", "bitcoin")]) = true ∧
    isValidHash "0x1234" = false ∧
    isValidHash "0xzz" = false :=
  have hctr : ∀ s : String,
      ((fun _ : String => List.replicate 32 0) s).length = 32 ∧
      ∀ b ∈ (fun _ : String => List.replicate 32 0) s, b < 256 :=
    fun _ => ⟨by simp, by simp⟩
  ⟨((hash_output_format _ hctr).1 "hello").2.2.2,
   (hash_output_format _ hctr).2.1 [("chain", "bitcoin")],
   (hash_output_format _ hctr).2.2.1 "0x1234" (by decide),
   (hash_output_format _ hctr).2.2.2 "0xzz" 'z' (by decide) (by decide)⟩

/-! Express handlers (`routes/challenge.js`, `routes/verify.js`).  Request
body fields are `Option String` (absent = `undefined`); `!field` in the
source is truthiness, failing on both `undefined` and the empty string. -/

/-- `c.toLowerCase()` on one character (ASCII case mapping, which is what
the handler's chain ids and `.eth` names exercise). -/
def jsCharToLower (c : Char) : Char :=
  if 'A' ≤ c ∧ c ≤ 'Z' then Char.ofNat (c.toNat + 32) else c

/-- `str.toLowerCase()`. -/
def jsToLower (s : String) : String :=
  String.mk (s.toList.map jsCharToLower)

/-- JavaScript falsiness of a request field. -/
def jsFalsy : Option String → Bool
  | none => true
  | some s => s == ""

/-- `str.endsWith(suf)` on code units. -/
def jsEndsWith (s suf : String) : Bool :=
  suf.toList.isSuffixOf s.toList

/-- Responses of the challenge endpoint: `400 {error, message}` or the
challenge JSON. -/
inductive ChallengeResponse where
  | badRequest (error message : String)
  | ok (ensName chain address nonce timestamp purpose : String)
  deriving DecidableEq, Repr

/-- The `POST /challenge` handler.  `nonce` and `timestamp` stand for the
request's `uuidv4()` and `new Date().toISOString()` values. -/
def challengeHandler (nonce timestamp : String)
    (ensName chain address : Option String) : ChallengeResponse :=
  if jsFalsy ensName || jsFalsy chain || jsFalsy address then
    .badRequest "Missing required fields"
      "ensName, chain, and address are required"
  else
    let ensNameS := ensName.getD ""
    let chainS := chain.getD ""
    let addressS := address.getD ""
    if !(["bitcoin", "solana"].contains (jsToLower chainS)) then
      .badRequest "Unsupported chain" "Supported chains: bitcoin, solana"
    else if !(jsEndsWith ensNameS ".eth") then
      .badRequest "Invalid ENS name" "ENS name must end with .eth"
    else
      .ok (jsToLower ensNameS) (jsToLower chainS) addressS nonce timestamp
        "bind-address-to-ens"

/-- C6: the challenge issuer validates in exactly this order with a
distinct failure per step — any missing input, then the lowercased chain
id against the supported set, then the `.eth` suffix on the raw name —
and on success returns the lower-cased name and chain, the address
unchanged, the fresh nonce, the timestamp and the fixed purpose. -/
theorem challenge_validation_order (nonce timestamp : String) :
    (∀ e c a, e = none ∨ c = none ∨ a = none →
      challengeHandler nonce timestamp e c a
        = .badRequest "Missing required fields"
            "ensName, chain, and address are required") ∧
    (∀ e c a, e ≠ "" → c ≠ "" → a ≠ "" →
      (["bitcoin", "solana"].contains (jsToLower c)) = false →
      challengeHandler nonce timestamp (some e) (some c) (some a)
        = .badRequest "Unsupported chain"
            "Supported chains: bitcoin, solana") ∧
    (∀ e c a, e ≠ "" → c ≠ "" → a ≠ "" →
      (["bitcoin", "solana"].contains (jsToLower c)) = true →
      jsEndsWith e ".eth" = false →
      challengeHandler nonce timestamp (some e) (some c) (some a)
        = .badRequest "Invalid ENS name" "ENS name must end with .eth") ∧
    (∀ e c a, e ≠ "" → c ≠ "" → a ≠ "" →
      (["bitcoin", "solana"].contains (jsToLower c)) = true →
      jsEndsWith e ".eth" = true →
      challengeHandler nonce timestamp (some e) (some c) (some a)
        = .ok (jsToLower e) (jsToLower c) a nonce timestamp
            "bind-address-to-ens") := by
  refine ⟨?_, ?_, ?_, ?_⟩
  · rintro e c a (rfl | rfl | rfl) <;> simp [challengeHandler, jsFalsy]
  · intro e c a he hc ha hchain
    have hchain' : ¬(jsToLower c = "bitcoin" ∨ jsToLower c = "solana") := by
      simpa using hchain
    simp [challengeHandler, jsFalsy, he, hc, ha, hchain']
  · intro e c a he hc ha hchain hsuf
    rcases (by simpa using hchain :
        jsToLower c = "bitcoin" ∨ jsToLower c = "solana") with h | h <;>
      simp [challengeHandler, jsFalsy, he, hc, ha, h, hsuf]
  · intro e c a he hc ha hchain hsuf
    rcases (by simpa using hchain :
        jsToLower c = "bitcoin" ∨ jsToLower c = "solana") with h | h <;>
      simp [challengeHandler, jsFalsy, he, hc, ha, h, hsuf]

/-- Witness for C6: one request per validation branch. -/
theorem challenge_validation_order_witness :
    challengeHandler "n0" "t0" none (some "bitcoin") (some "x")
      = .badRequest "Missing required fields"
          "ensName, chain, and address are required" ∧
    challengeHandler "n0" "t0" (some "alice.eth") (some "dogecoin") (some "x")
      = .badRequest "Unsupported chain" "Supported chains: bitcoin, solana" ∧
    challengeHandler "n0" "t0" (some "alice") (some "bitcoin") (some "x")
      = .badRequest "Invalid ENS name" "ENS name must end with .eth" ∧
    challengeHandler "n0" "t0" (some "Alice.eth") (some "Bitcoin") (some "X")
      = .ok (jsToLower "Alice.eth") (jsToLower "Bitcoin") "X" "n0" "t0"
          "bind-address-to-ens" :=
  ⟨(challenge_validation_order "n0" "t0").1 none (some "bitcoin") (some "x")
      (Or.inl rfl),
   (challenge_validation_order "n0" "t0").2.1 "alice.eth" "dogecoin" "x"
      (by decide) (by decide) (by decide) (by decide),
   (challenge_validation_order "n0" "t0").2.2.1 "alice" "bitcoin" "x"
      (by decide) (by decide) (by decide) (by decide) (by decide),
   (challenge_validation_order "n0" "t0").2.2.2 "Alice.eth" "Bitcoin" "X"
      (by decide) (by decide) (by decide) (by decide) (by decide)⟩

/-- C10: the `.eth` suffix check is case-sensitive and runs before the
name is lower-cased: a name ending in any non-lowercase casing of `.eth`
is rejected with the invalid-name error, for every supported chain and
non-empty address, although the success path would have lower-cased the
name into one ending in `.eth`. -/
theorem challenge_suffix_case_sensitive (nonce timestamp : String)
    (e c a : String) (p l : List Char)
    (hsplit : e.toList = p ++ l)
    (hlower : l.map jsCharToLower = ".eth".toList)
    (hne : l ≠ ".eth".toList)
    (hchain : (["bitcoin", "solana"].contains (jsToLower c)) = true)
    (ha : a ≠ "") :
    challengeHandler nonce timestamp (some e) (some c) (some a)
      = .badRequest "Invalid ENS name" "ENS name must end with .eth" := by
  have hllen : l.length = 4 := by
    have h4 := congrArg List.length hlower
    simpa using h4
  have he : e ≠ "" := by
    intro h
    rw [h] at hsplit
    have hl0 := congrArg List.length hsplit
    simp [hllen] at hl0
  have hc : c ≠ "" := by
    intro h
    rw [h] at hchain
    exact absurd hchain (by decide)
  have hends : jsEndsWith e ".eth" = false := by
    cases hval : jsEndsWith e ".eth" with
    | false => rfl
    | true =>
      exfalso
      rw [jsEndsWith] at hval
      obtain ⟨q, hq⟩ := List.isSuffixOf_iff_suffix.mp hval
      rw [hsplit] at hq
      refine hne ?_
      exact ((List.append_inj' hq (by simp [hllen])).2).symm
  rcases (by simpa using hchain :
      jsToLower c = "bitcoin" ∨ jsToLower c = "solana") with h | h <;>
    simp [challengeHandler, jsFalsy, he, hc, ha, h, hends]

/-- Witness for C10: `alice.ETH` with chain `bitcoin`. -/
theorem challenge_suffix_case_sensitive_witness :
    challengeHandler "n0" "t0" (some "alice.ETH") (some "bitcoin") (some "x")
      = .badRequest "Invalid ENS name" "ENS name must end with .eth" :=
  challenge_suffix_case_sensitive "n0" "t0" "alice.ETH" "bitcoin" "x"
    ("alice".toList) ['.', 'E', 'T', 'H'] (by decide) (by decide) (by decide)
    (by decide) (by decide)

/-- Responses of the verify endpoint: `400 {error, message}` or the
success JSON `{success, proofHash, ipfsHash, metadata}`. -/
inductive VerifyResponse where
  | badRequest (error message : String)
  | success (proofHash : String) (ipfsHash : Option String)
      (chain address verifiedAt : String)
  deriving DecidableEq, Repr

/-- The fingerprint carried by a response, if any. -/
def VerifyResponse.fingerprint : VerifyResponse → Option String
  | .success proofHash _ _ _ _ => some proofHash
  | .badRequest _ _ => none

/-- The `POST /verify` handler (the verification orchestrator).
`keccakBytes` is the hash engine's digest primitive,
`btcMessageVerify` / `naclVerify` the verifier primitives, `ipfsUpload`
the `ipfsService.uploadProof` collaborator — it may throw, and its
`try/catch` replaces a failure by a `null` ipfs hash and continues — and
`now` the `new Date().toISOString()` value used for `verifiedAt`. -/
def verifyHandler (keccakBytes : String → List Nat)
    (btcMessageVerify : String → String → String → Except JsError Bool)
    (naclVerify : List Nat → List Nat → List Nat → Except JsError Bool)
    (ipfsUpload : List (String × String) → Except JsError String)
    (now : String)
    (chain address signature nonce message : Option String) : VerifyResponse :=
  if jsFalsy chain || jsFalsy address || jsFalsy signature || jsFalsy nonce
      || jsFalsy message then
    .badRequest "Missing required fields"
      "chain, address, signature, nonce, and message are required"
  else
    let chainS := chain.getD ""
    let addressS := address.getD ""
    let signatureS := signature.getD ""
    let nonceS := nonce.getD ""
    let messageS := message.getD ""
    if !(["bitcoin", "solana"].contains (jsToLower chainS)) then
      .badRequest "Unsupported chain" "Supported chains: bitcoin, solana"
    else
      let isValid :=
        if jsToLower chainS == "bitcoin" then
          bitcoinVerifySignature btcMessageVerify addressS messageS signatureS
        else if jsToLower chainS == "solana" then
          solanaVerifySignature naclVerify addressS messageS signatureS
        else false
      if isValid = false then
        .badRequest "Invalid signature" "Signature verification failed"
      else
        let proof := [("chain", jsToLower chainS), ("address", addressS),
          ("signature", signatureS), ("nonce", nonceS), ("verifiedAt", now)]
        let ipfsHash :=
          match ipfsUpload proof with
          | .ok h => some h
          | .error _ => none
        let proofHash := computeProofHash keccakBytes proof
        .success proofHash ipfsHash (jsToLower chainS) addressS now

/-- C7: when signature verification succeeds but persisting the raw proof
throws, the error is caught and the handler still answers success carrying
the proof fingerprint and its metadata, with a `null` persistence
reference; and the fingerprint component of the response is the same for
every persistence collaborator — a persistence failure can neither change
it nor turn the result into a failure. -/
theorem verify_persistence_failure_tolerated
    (keccakBytes : String → List Nat)
    (btcMessageVerify : String → String → String → Except JsError Bool)
    (naclVerify : List Nat → List Nat → List Nat → Except JsError Bool)
    (ipfsUpload : List (String × String) → Except JsError String)
    (now c a sg n m : String)
    (hc : c ≠ "") (ha : a ≠ "") (hsg : sg ≠ "") (hn : n ≠ "") (hm : m ≠ "")
    (hchain : (["bitcoin", "solana"].contains (jsToLower c)) = true)
    (hverify : (if jsToLower c == "bitcoin" then
          bitcoinVerifySignature btcMessageVerify a m sg
        else if jsToLower c == "solana" then
          solanaVerifySignature naclVerify a m sg
        else false) = true)
    (e : JsError)
    (hfail : ipfsUpload [("chain", jsToLower c), ("address", a),
      ("signature", sg), ("nonce", n), ("verifiedAt", now)] = .error e) :
    verifyHandler keccakBytes btcMessageVerify naclVerify ipfsUpload now
        (some c) (some a) (some sg) (some n) (some m)
      = .success
          (computeProofHash keccakBytes
            [("chain", jsToLower c), ("address", a), ("signature", sg),
             ("nonce", n), ("verifiedAt", now)])
          none (jsToLower c) a now ∧
    (∀ u' : List (String × String) → Except JsError String,
      (verifyHandler keccakBytes btcMessageVerify naclVerify u' now
          (some c) (some a) (some sg) (some n) (some m)).fingerprint
        = some (computeProofHash keccakBytes
            [("chain", jsToLower c), ("address", a), ("signature", sg),
             ("nonce", n), ("verifiedAt", now)])) := by
  rcases (by simpa using hchain :
      jsToLower c = "bitcoin" ∨ jsToLower c = "solana") with h | h
  all_goals
    simp only [h] at hverify
    simp at hverify
    rw [h] at hfail
    constructor
    · simp [verifyHandler, jsFalsy, hc, ha, hsg, hn, hm, h, hverify, hfail,
        VerifyResponse.fingerprint]
    · intro u'
      simp [verifyHandler, jsFalsy, hc, ha, hsg, hn, hm, h, hverify,
        VerifyResponse.fingerprint]

/-- Witness for C7: a bitcoin request with an accepting signature primitive
and a throwing proof store. -/
theorem verify_persistence_failure_tolerated_witness :
    verifyHandler (fun _ => List.replicate 32 0) (fun _ _ _ => .ok true)
        (fun _ _ _ => .ok true) (fun _ => .error "ipfs down") "t"
        (some "bitcoin") (some "1A1zP1eP5QGefi2DMPTfTL5SLmv7DivfNa")
        (some "s") (some "n") (some "m")
      = .success
          (computeProofHash (fun _ => List.replicate 32 0)
            [("chain", jsToLower "bitcoin"),
             ("address", "1A1zP1eP5QGefi2DMPTfTL5SLmv7DivfNa"),
             ("signature", "s"), ("nonce", "n"), ("verifiedAt", "t")])
          none (jsToLower "bitcoin") "1A1zP1eP5QGefi2DMPTfTL5SLmv7DivfNa"
          "t" :=
  (verify_persistence_failure_tolerated (fun _ => List.replicate 32 0)
    (fun _ _ _ => .ok true) (fun _ _ _ => .ok true)
    (fun _ => .error "ipfs down") "t" "bitcoin"
    "1A1zP1eP5QGefi2DMPTfTL5SLmv7DivfNa" "s" "n" "m"
    (by decide) (by decide) (by decide) (by decide) (by decide) (by decide)
    (by decide) "ipfs down" rfl).1
